import Mathlib

/-!
Shallow embedding of `cactus/file.py` (class `File`): the fingerprinting /
payload builder and the sync orchestrator (change detection, upload with
retry, progress reporting).

Conventions of the embedding:
* file paths are `List Char` (Python `str`), raw contents and payloads are
  `List Nat` (byte strings);
* external collaborators that are not part of the source file
  (the compressor `compressString`, the hash `hashlib.md5(...).hexdigest()`)
  are fields of an `Externals` record: the source only ever applies them;
* side effects (pre-deploy hook, remote metadata fetch, store upload) are
  explicit state passing over a `SyncState` record, and exceptions are
  `Except Err`.
-/

abbrev LC := List Char

/-- Python `str.lower` restricted to the ASCII letters, which is all the
source ever feeds it (file-path extensions). -/
def pyLower (c : Char) : Char :=
  if 65 ≤ c.toNat ∧ c.toNat ≤ 90 then Char.ofNat (c.toNat + 32) else c

def strLower (s : LC) : LC := s.map pyLower

/-- Python `str.strip(c)`: remove every leading and trailing occurrence of
the character `c`. -/
def pyStripChar (c : Char) (l : LC) : LC :=
  ((l.dropWhile (fun a => a = c)).reverse.dropWhile (fun a => a = c)).reverse

/-- The part of the path after the last `/` (the basename), as used by
`os.path.splitext`. -/
def afterLastSlash : LC → LC
  | [] => []
  | c :: cs => if c = '/' ∨ cs.contains '/' then afterLastSlash cs else c :: cs

/-- The suffix of `l` starting at its last `.`, if any. -/
def lastDotSuffix : LC → Option LC
  | [] => none
  | c :: cs =>
    match lastDotSuffix cs with
    | some s => some s
    | none => if c = '.' then some (c :: cs) else none

/-- The extension part of `os.path.splitext(p)`: the suffix of the basename
from its last dot, provided a non-dot character precedes that dot in the
basename (leading dots of the basename never start an extension). -/
def splitextExt (p : LC) : LC :=
  match lastDotSuffix ((afterLastSlash p).dropWhile (fun a => a = '.')) with
  | some s => s
  | none => []

/-- `File.extension`: `os.path.splitext(self.path)[1].strip('.').lower()`. -/
def extension (p : LC) : LC :=
  strLower (pyStripChar '.' (splitextExt p))

def CACHE_EXPIRATION : Nat := 60 * 60 * 24 * 7

def COMPRESS_TYPES : List LC := ["html".data, "css".data, "js".data, "txt".data, "xml".data]

def COMPRESS_MIN_SIZE : Nat := 1024

def PROGRESS_MIN_SIZE : Nat := (1024 * 1024) / 2

/-- A local artifact: its path and its raw content (`File.data`, the
memoized read of the built file, immutable for the artifact's lifetime). -/
structure File where
  path : LC
  data : List Nat
deriving DecidableEq

/-- External collaborators applied (never inspected) by `cactus/file.py`:
`compressString` from `cactus.utils.file` and the hex MD5 from `hashlib`. -/
structure Externals where
  compressString : List Nat → List Nat
  md5Hex : List Nat → LC

/-- `File.shouldCompress`. -/
def shouldCompress (f : File) : Bool :=
  if !(COMPRESS_TYPES.contains (extension f.path)) then false
  else if f.data.length < COMPRESS_MIN_SIZE then false
  else true

/-- `File.payload`, as a function of the artifact: compressed content when
`shouldCompress`, raw content otherwise. -/
def payload (E : Externals) (f : File) : List Nat :=
  if shouldCompress f then E.compressString f.data else f.data

/-- `File.checksum`: `hashlib.md5(self.payload()).hexdigest()`. -/
def checksum (E : Externals) (f : File) : LC :=
  E.md5Hex (payload E f)

/-- The mutable view of an artifact for the payload cache: `payloadCache`
is `some v` exactly when the `_payload` attribute is set (to `v`). -/
structure FileState where
  file : File
  payloadCache : Option (List Nat)
deriving DecidableEq

/-- One call of the memoizing `File.payload`: returns the cached value when
the `_payload` attribute exists, otherwise computes it and stores it. -/
def payloadStep (E : Externals) (s : FileState) : List Nat × FileState :=
  match s.payloadCache with
  | some v => (v, s)
  | none =>
    let v := if shouldCompress s.file then E.compressString s.file.data else s.file.data
    (v, ⟨s.file, some v⟩)

example : extension ("index.HTML".data) = "html".data := by decide
example : extension (".bashrc".data) = "".data := by decide
example : extension ("a/b.TxT".data) = "txt".data := by decide
example : extension ("a.b/c".data) = "".data := by decide
example : extension ("foo.".data) = "".data := by decide
example : splitextExt ("..a.b".data) = ".b".data := by decide

/-- First-match lookup in an association list (`dict.get`, returning
`none` for a missing key). -/
def lookupA : List (LC × LC) → LC → Option LC
  | [], _ => none
  | kv :: t, k => if kv.1 == k then some kv.2 else lookupA t k

/-- Modelled from the spec: `CaseInsensitiveDict.__setitem__`
(`cactus.utils.helpers`, not under `src/`) normalizes header names to
lowercase on insert and preserves insertion order; an existing key is
overwritten in place, a new one is appended. -/
def ciSet (h : List (LC × LC)) (k v : LC) : List (LC × LC) :=
  let k2 := strLower k
  if h.any (fun kv => kv.1 == k2) then
    h.map (fun kv => if kv.1 == k2 then (k2, v) else kv)
  else h ++ [(k2, v)]

/-- Modelled from the spec: `getURLHeaders` (`cactus.utils.url`, not under
`src/`) performs the metadata-only fetch and returns the remote object's
header set — empty when the object does not exist — with header names
handled case-insensitively (normalized to lowercase here). The remote
object's raw headers are the `remote` argument. -/
def getURLHeaders (remote : List (LC × LC)) : List (LC × LC) :=
  remote.map (fun kv => (strLower kv.1, kv.2))

/-- The `remote_headers` dict built by `File.changed`: the fetched headers
with every value stripped of surrounding quote characters. -/
def processedRemote (remote : List (LC × LC)) : List (LC × LC) :=
  (getURLHeaders remote).map (fun kv => (kv.1, pyStripChar (Char.ofNat 34) kv.2))

/-- `File.changed`: copy the local header set, add the payload checksum as
`etag`, and report a change iff some local header's value differs from (or
is missing in) the processed remote set. `hdrs` is `self.headers` as set by
`upload` before the call. -/
def changed (E : Externals) (remote : List (LC × LC)) (hdrs : List (LC × LC)) (f : File) : Bool :=
  let remoteHeaders := processedRemote remote
  let localHeaders := ciSet hdrs ("etag".data) (checksum E f)
  localHeaders.any (fun kv => decide (lookupA remoteHeaders kv.1 ≠ some kv.2))

/-- The `self.headers` dict built at the start of `File.upload`:
`Cache-Control` always, `Content-Encoding: gzip` iff `shouldCompress`. -/
def buildHeaders (f : File) : List (LC × LC) :=
  let hdrs := ciSet [] ("Cache-Control".data) ("max-age=".data ++ (toString CACHE_EXPIRATION).data)
  if shouldCompress f then ciSet hdrs ("Content-Encoding".data) ("gzip".data) else hdrs

/-- The local header set used for the change decision: `self.headers` plus
the `etag` entry added inside `File.changed`. -/
def localHeadersFull (E : Externals) (f : File) : List (LC × LC) :=
  ciSet (buildHeaders f) ("etag".data) (checksum E f)

/-- Exception classes relevant to the retry decorator: `socket.error`
(the transient, retried class) versus every other exception
(auth / permission / validation failures, hook failures). -/
inductive Err where
  | socketErr : Err
  | otherErr : Err
deriving DecidableEq

/-- The remote store used by one sync: the remote object's raw metadata
headers (`[]` when the object does not exist) and a script giving the
outcome of the n-th store upload call (`none` = success). -/
structure Store where
  remote : List (LC × LC)
  uploadOutcome : Nat → Option Err

/-- Observable side effects of running `File.upload`: how many times the
pre-deploy hook, the remote metadata fetch and the store upload ran, the
`self.headers` attribute, the `self.lastUpload` mark, and whether a
progress callback was attached to the last store upload call. -/
structure SyncState where
  hookCalls : Nat
  fetchCalls : Nat
  uploadCalls : Nat
  lastUpload : Nat
  progressAttached : Bool
  headersAttr : List (LC × LC)
deriving DecidableEq

def initState : SyncState :=
  ⟨0, 0, 0, 0, false, []⟩

/-- The `{'changed': ..., 'size': ...}` dict returned by `File.upload`. -/
structure UploadOutcome where
  changed : Bool
  size : Nat
deriving DecidableEq

/-- One un-decorated run of the body of `File.upload`: reset `lastUpload`,
build `self.headers`, run the pre-deploy hook, fetch the remote metadata
and take the change decision, and if changed attach a progress callback
for large payloads and call the store upload (whose scripted outcome may
raise). -/
def uploadBody (E : Externals) (st : Store) (f : File) (s : SyncState) :
    Except Err UploadOutcome × SyncState :=
  let hdrs := buildHeaders f
  let s1 : SyncState :=
    { s with lastUpload := 0, headersAttr := hdrs,
             hookCalls := s.hookCalls + 1, fetchCalls := s.fetchCalls + 1 }
  if changed E st.remote hdrs f then
    let pl := payload E f
    let s2 : SyncState :=
      { s1 with progressAttached := decide (PROGRESS_MIN_SIZE < pl.length),
                uploadCalls := s1.uploadCalls + 1 }
    match st.uploadOutcome s2.uploadCalls with
    | some e => (Except.error e, s2)
    | none => (Except.ok ⟨true, pl.length⟩, s2)
  else
    (Except.ok ⟨false, (payload E f).length⟩, s1)

/-- Modelled from the spec: the `retry` decorator
(`cactus.utils.network`, not under `src/`) re-invokes the wrapped callable
while it raises the transient exception class, up to `mtries` total
attempts, sleeping the current delay before each re-attempt and
multiplying it by the backoff factor; any other exception, and the
transient one on the last attempt, propagates. The returned list records
the sleeps performed. -/
def retryGo {α σ : Type} (body : σ → Except Err α × σ) (backoff : Nat) :
    Nat → Nat → σ → List Nat → Except Err α × σ × List Nat
  | 0, _, s, sleeps => ((body s).1, (body s).2, sleeps)
  | 1, _, s, sleeps => ((body s).1, (body s).2, sleeps)
  | m + 2, mdelay, s, sleeps =>
    match body s with
    | (Except.ok a, s2) => (Except.ok a, s2, sleeps)
    | (Except.error Err.socketErr, s2) =>
        retryGo body backoff (m + 1) (mdelay * backoff) s2 (sleeps ++ [mdelay])
    | (Except.error Err.otherErr, s2) => (Except.error Err.otherErr, s2, sleeps)

/-- `File.upload` as called by a sync: the body under
`@retry(socket.error, tries = 5, delay = 3, backoff = 2)`, started from a
fresh state. -/
def upload (E : Externals) (st : Store) (f : File) :
    Except Err UploadOutcome × SyncState × List Nat :=
  retryGo (uploadBody E st f) 2 5 3 initState []

/-- The state captured by the progress closure: the `lastUpload`
high-water mark and the list of byte counts at which a progress line was
logged (the log line itself shows the derived percentage). -/
structure ProgressState where
  lastUpload : Nat
  log : List Nat
deriving DecidableEq

/-- One invocation of the `progressCallback` closure with cumulative
transferred bytes `current`: log and advance the mark only when `current`
strictly exceeds it. -/
def progressCallback (s : ProgressState) (current : Nat) : ProgressState :=
  if s.lastUpload < current then ⟨current, s.log ++ [current]⟩ else s

/-- A whole sequence of progress reports, folded through the closure. -/
def runProgress (s : ProgressState) (reports : List Nat) : ProgressState :=
  reports.foldl progressCallback s

/-- A concrete environment for witnesses: a compressor that prepends a
byte and a constant hex digest. -/
def E0 : Externals := ⟨fun d => 0 :: d, fun _ => "00".data⟩

/-- A concrete small artifact that is not compressible. -/
def f0 : File := ⟨"logo.png".data, [1, 2, 3]⟩

/-- A store whose object is absent and whose first four upload attempts
fail with a transient socket error. -/
def stFail4 : Store := ⟨[], fun n => if n ≤ 4 then some Err.socketErr else none⟩

/-- A store whose object is absent and whose first five upload attempts
fail with a transient socket error. -/
def stFail5 : Store := ⟨[], fun n => if n ≤ 5 then some Err.socketErr else none⟩

/-- A store whose object is absent and whose every upload attempt fails
with a non-transient (auth/permission/validation) error. -/
def stAuth : Store := ⟨[], fun _ => some Err.otherErr⟩

/-- A store whose object is absent and whose first upload attempt fails
with a transient socket error, succeeding afterwards. -/
def stFail1 : Store := ⟨[], fun n => if n = 1 then some Err.socketErr else none⟩

/-- A store whose object is absent and whose uploads always succeed. -/
def stOk : Store := ⟨[], fun _ => none⟩

example : buildHeaders ⟨"logo.png".data, [1, 2, 3]⟩ =
    [("cache-control".data, "max-age=604800".data)] := by decide
example :
    changed ⟨fun d => d, fun _ => "00".data⟩ [] (buildHeaders ⟨"logo.png".data, [1, 2, 3]⟩)
      ⟨"logo.png".data, [1, 2, 3]⟩ = true := by decide
example :
    changed ⟨fun d => d, fun _ => "00".data⟩
      [("Cache-Control".data, "max-age=604800".data),
       ("ETag".data, [Char.ofNat 34] ++ "00".data ++ [Char.ofNat 34])]
      (buildHeaders ⟨"logo.png".data, [1, 2, 3]⟩) ⟨"logo.png".data, [1, 2, 3]⟩ = false := by
  decide

/-- C2: `shouldCompress` is true iff the extension is in the fixed
allow-list `COMPRESS_TYPES` and the raw content length reaches
`COMPRESS_MIN_SIZE` (1024); in particular a zero-length artifact is never
compressed, whatever its extension. -/
theorem shouldCompress_spec (f : File) :
    (shouldCompress f = true ↔
      (extension f.path ∈ COMPRESS_TYPES ∧ COMPRESS_MIN_SIZE ≤ f.data.length))
    ∧ (f.data.length = 0 → shouldCompress f = false) := by
  have h1 : shouldCompress f = true ↔
      (extension f.path ∈ COMPRESS_TYPES ∧ COMPRESS_MIN_SIZE ≤ f.data.length) := by
    unfold shouldCompress
    by_cases hm : extension f.path ∈ COMPRESS_TYPES
    · by_cases hs : f.data.length < COMPRESS_MIN_SIZE
      · simp [List.elem_iff.mpr hm, hs]
      · simp [List.elem_iff.mpr hm, hs]
        omega
    · have hce : COMPRESS_TYPES.contains (extension f.path) = false := by
        cases hcc : COMPRESS_TYPES.contains (extension f.path)
        · rfl
        · exact absurd (List.elem_iff.mp hcc) hm
      simp [hce, hm]
  refine ⟨h1, fun hz => ?_⟩
  by_contra hc
  have := h1.mp (by revert hc; cases shouldCompress f <;> simp)
  unfold COMPRESS_MIN_SIZE at this
  omega

/-- C2 witness: the zero-length artifact `a.html` is not compressed. -/
theorem shouldCompress_spec_witness :
    shouldCompress ⟨"a.html".data, ([] : List Nat)⟩ = false :=
  (shouldCompress_spec ⟨"a.html".data, []⟩).2 rfl

/-- C6: when `shouldCompress` is false the payload is the raw content and
the checksum is the hash of the raw content; in general the checksum is
always the hash of the payload. -/
theorem payload_checksum_raw (E : Externals) (f : File) :
    (shouldCompress f = false → payload E f = f.data ∧ checksum E f = E.md5Hex f.data)
    ∧ checksum E f = E.md5Hex (payload E f) := by
  refine ⟨fun h => ?_, rfl⟩
  constructor
  · simp [payload, h]
  · simp [checksum, payload, h]

/-- C6 witness: for the concrete non-compressible artifact `f0` the
payload is the raw content and the checksum hashes it. -/
theorem payload_checksum_raw_witness :
    payload E0 f0 = f0.data ∧ checksum E0 f0 = E0.md5Hex f0.data :=
  (payload_checksum_raw E0 f0).1 (by decide)

/-- C7: the first call of the memoizing `payload` stores its result in the
cached field, and a further call returns that same value with the state
unchanged (no recomputation); on an uncached artifact the value is exactly
the payload function of the content. -/
theorem payloadStep_memo (E : Externals) (s : FileState) :
    (s.payloadCache = none → (payloadStep E s).1 = payload E s.file)
    ∧ payloadStep E ((payloadStep E s).2) = ((payloadStep E s).1, (payloadStep E s).2)
    ∧ ((payloadStep E s).2).payloadCache = some ((payloadStep E s).1) := by
  cases h : s.payloadCache with
  | none =>
    refine ⟨fun _ => ?_, ?_, ?_⟩ <;> simp [payloadStep, h, payload]
  | some v =>
    refine ⟨?_, ?_, ?_⟩
    · intro hc
      exact absurd hc (by simp [h])
    · simp [payloadStep, h]
    · simp [payloadStep, h]

/-- C7 witness: the memoizing payload at the fresh state of `f0`. -/
theorem payloadStep_memo_witness :
    (payloadStep E0 ⟨f0, none⟩).1 = payload E0 f0 :=
  (payloadStep_memo E0 ⟨f0, none⟩).1 rfl

lemma buildHeaders_false (f : File) (hc : shouldCompress f = false) :
    buildHeaders f = [("cache-control".data, "max-age=604800".data)] := by
  unfold buildHeaders
  rw [hc]
  rfl

lemma buildHeaders_true (f : File) (hc : shouldCompress f = true) :
    buildHeaders f = [("cache-control".data, "max-age=604800".data),
      ("content-encoding".data, "gzip".data)] := by
  unfold buildHeaders
  rw [hc]
  rfl

lemma retryGo_okStep {α σ : Type} (body : σ → Except Err α × σ) (backoff m mdelay : Nat)
    (s : σ) (sleeps : List Nat) (a : α) (s2 : σ) (h : body s = (Except.ok a, s2)) :
    retryGo body backoff (m + 2) mdelay s sleeps = (Except.ok a, s2, sleeps) := by
  unfold retryGo
  rw [h]

lemma uploadBody_unchanged (E : Externals) (st : Store) (f : File) (s : SyncState)
    (h : changed E st.remote (buildHeaders f) f = false) :
    uploadBody E st f s = (Except.ok ⟨false, (payload E f).length⟩,
      { s with lastUpload := 0, headersAttr := buildHeaders f,
               hookCalls := s.hookCalls + 1, fetchCalls := s.fetchCalls + 1 }) := by
  simp only [uploadBody, h]
  rfl

lemma uploadBody_changed (E : Externals) (st : Store) (f : File) (s : SyncState)
    (h : changed E st.remote (buildHeaders f) f = true) :
    uploadBody E st f s =
      ((match st.uploadOutcome (s.uploadCalls + 1) with
        | some e => Except.error e
        | none => Except.ok ⟨true, (payload E f).length⟩),
       { s with lastUpload := 0, headersAttr := buildHeaders f,
                hookCalls := s.hookCalls + 1, fetchCalls := s.fetchCalls + 1,
                progressAttached := decide (PROGRESS_MIN_SIZE < (payload E f).length),
                uploadCalls := s.uploadCalls + 1 }) := by
  simp only [uploadBody, h, if_true]
  cases st.uploadOutcome (s.uploadCalls + 1) <;> rfl

/-- C1: the change decision is a one-directional, local-driven diff — it
holds iff some header of the local set differs from (or is absent in) the
quote-stripped remote set (so remote-only headers never matter); and when
every local header agrees with the remote set, the sync performs zero
upload calls, sleeps never, and returns `changed = false`. -/
theorem changed_spec (E : Externals) (st : Store) (f : File) :
    (changed E st.remote (buildHeaders f) f = true ↔
      ∃ kv ∈ localHeadersFull E f, lookupA (processedRemote st.remote) kv.1 ≠ some kv.2)
    ∧ (changed E st.remote (buildHeaders f) f = false →
        (upload E st f).1 = Except.ok ⟨false, (payload E f).length⟩
        ∧ (upload E st f).2.1.uploadCalls = 0
        ∧ (upload E st f).2.2 = []) := by
  constructor
  · unfold changed localHeadersFull
    rw [List.any_eq_true]
    simp only [decide_eq_true_eq]
  · intro h
    have hb := uploadBody_unchanged E st f initState h
    have hr := retryGo_okStep (uploadBody E st f) 2 3 3 initState [] _ _ hb
    have h5 : (3 : Nat) + 2 = 5 := rfl
    rw [h5] at hr
    unfold upload
    rw [hr]
    exact ⟨rfl, rfl, rfl⟩

/-- A store whose object carries exactly the local headers of `f0` under
`E0` (quoted entity tag, mixed-case names) and whose uploads succeed. -/
def stMatch : Store :=
  ⟨[("Cache-Control".data, "max-age=604800".data),
    ("ETag".data, [Char.ofNat 34] ++ "00".data ++ [Char.ofNat 34])], fun _ => none⟩

/-- C1 witness: on a store agreeing with every local header of `f0`, the
sync uploads nothing and reports `changed = false`. -/
theorem changed_spec_witness :
    (upload E0 stMatch f0).1 = Except.ok ⟨false, (payload E0 f0).length⟩
    ∧ (upload E0 stMatch f0).2.1.uploadCalls = 0
    ∧ (upload E0 stMatch f0).2.2 = [] :=
  (changed_spec E0 stMatch f0).2 (by decide)

/-- C3: the local metadata header set of the change decision always holds
`cache-control: max-age=604800`, holds `content-encoding: gzip` iff
`shouldCompress`, and holds the payload checksum as the `etag` field. -/
theorem localHeaders_spec (E : Externals) (f : File) :
    lookupA (localHeadersFull E f) ("cache-control".data) = some ("max-age=604800".data)
    ∧ (lookupA (localHeadersFull E f) ("content-encoding".data) = some ("gzip".data)
        ↔ shouldCompress f = true)
    ∧ lookupA (localHeadersFull E f) ("etag".data) = some (checksum E f) := by
  cases hc : shouldCompress f
  · have hl : localHeadersFull E f =
        [("cache-control".data, "max-age=604800".data), ("etag".data, checksum E f)] := by
      unfold localHeadersFull
      rw [buildHeaders_false f hc]
      rfl
    rw [hl]
    refine ⟨rfl, ?_, rfl⟩
    have hn : lookupA [("cache-control".data, "max-age=604800".data),
        ("etag".data, checksum E f)] ("content-encoding".data) = none := rfl
    rw [hn]
    constructor
    · intro hx
      cases hx
    · intro hx
      cases hx
  · have hl : localHeadersFull E f =
        [("cache-control".data, "max-age=604800".data), ("content-encoding".data, "gzip".data),
         ("etag".data, checksum E f)] := by
      unfold localHeadersFull
      rw [buildHeaders_true f hc]
      rfl
    rw [hl]
    exact ⟨rfl, ⟨fun _ => rfl, fun _ => rfl⟩, rfl⟩

/-- C9: when the remote object does not exist (empty remote header set)
the change decision is always true — the local header set is never empty —
and the sync performs the upload, returning `changed = true`. -/
theorem remote_absent (E : Externals) (f : File) (st : Store)
    (hr : st.remote = []) (hok : st.uploadOutcome 1 = none) :
    changed E st.remote (buildHeaders f) f = true
    ∧ localHeadersFull E f ≠ []
    ∧ (upload E st f).1 = Except.ok ⟨true, (payload E f).length⟩
    ∧ (upload E st f).2.1.uploadCalls = 1 := by
  have hch : changed E st.remote (buildHeaders f) f = true := by
    rw [hr]
    unfold changed processedRemote getURLHeaders
    cases hc : shouldCompress f
    · rw [buildHeaders_false f hc]
      rfl
    · rw [buildHeaders_true f hc]
      rfl
  have hne : localHeadersFull E f ≠ [] := by
    cases hc : shouldCompress f
    · have hl : localHeadersFull E f =
          ("cache-control".data, "max-age=604800".data) :: [("etag".data, checksum E f)] := by
        unfold localHeadersFull
        rw [buildHeaders_false f hc]
        rfl
      rw [hl]
      exact List.cons_ne_nil _ _
    · have hl : localHeadersFull E f =
          ("cache-control".data, "max-age=604800".data) ::
            [("content-encoding".data, "gzip".data), ("etag".data, checksum E f)] := by
        unfold localHeadersFull
        rw [buildHeaders_true f hc]
        rfl
      rw [hl]
      exact List.cons_ne_nil _ _
  have hb := uploadBody_changed E st f initState hch
  have hcalls : initState.uploadCalls + 1 = 1 := rfl
  rw [hcalls, hok] at hb
  have hr2 := retryGo_okStep (uploadBody E st f) 2 3 3 initState [] _ _ hb
  have h5 : (3 : Nat) + 2 = 5 := rfl
  rw [h5] at hr2
  refine ⟨hch, hne, ?_, ?_⟩
  · unfold upload
    rw [hr2]
  · unfold upload
    rw [hr2]

/-- C9 witness: syncing `f0` against an absent remote object uploads it. -/
theorem remote_absent_witness :
    changed E0 stOk.remote (buildHeaders f0) f0 = true
    ∧ localHeadersFull E0 f0 ≠ []
    ∧ (upload E0 stOk f0).1 = Except.ok ⟨true, (payload E0 f0).length⟩
    ∧ (upload E0 stOk f0).2.1.uploadCalls = 1 :=
  remote_absent E0 f0 stOk rfl rfl

lemma char_toNat_ofNat (n : Nat) (hv : n.isValidChar) : (Char.ofNat n).toNat = n := by
  simp [Char.ofNat, Char.ofNatAux, dif_pos hv, Char.toNat, UInt32.toNat, BitVec.toNat_ofNatLt]

lemma pyLower_low (c d : Char) (hd : d.toNat < 65) : pyLower c = d ↔ c = d := by
  unfold pyLower
  split
  · rename_i h
    constructor
    · intro he
      have hv : (c.toNat + 32).isValidChar := Or.inl (by omega)
      have ht := char_toNat_ofNat (c.toNat + 32) hv
      rw [he] at ht
      omega
    · intro he
      exfalso
      have : c.toNat = d.toNat := by rw [he]
      omega
  · exact Iff.rfl

lemma pyLower_idem (c : Char) : pyLower (pyLower c) = pyLower c := by
  by_cases h : 65 ≤ c.toNat ∧ c.toNat ≤ 90
  · have hv : (c.toNat + 32).isValidChar := Or.inl (by omega)
    have ht := char_toNat_ofNat (c.toNat + 32) hv
    unfold pyLower
    rw [if_pos h, if_neg (by omega)]
  · unfold pyLower
    rw [if_neg h, if_neg h]

lemma contains_slash_map (l : LC) : (l.map pyLower).contains '/' = l.contains '/' := by
  induction l with
  | nil => rfl
  | cons a l ih =>
    by_cases h : a = '/'
    · subst h
      rfl
    · have h2 : pyLower a ≠ '/' := fun hx => h ((pyLower_low a '/' (by decide)).mp hx)
      simp only [List.map_cons, List.contains_cons, ih]
      have hb1 : ('/' == pyLower a) = false := by
        rw [beq_eq_false_iff_ne]
        exact fun hx => h2 hx.symm
      have hb2 : ('/' == a) = false := by
        rw [beq_eq_false_iff_ne]
        exact fun hx => h hx.symm
      rw [hb1, hb2]

lemma dropDot_map (l : LC) :
    (l.map pyLower).dropWhile (fun a => a = '.') = (l.dropWhile (fun a => a = '.')).map pyLower := by
  induction l with
  | nil => rfl
  | cons a l ih =>
    by_cases h : a = '.'
    · subst h
      simp only [List.map_cons, List.dropWhile_cons]
      rw [show pyLower '.' = '.' from rfl]
      simp [ih]
    · have h2 : pyLower a ≠ '.' := fun hx => h ((pyLower_low a '.' (by decide)).mp hx)
      simp only [List.map_cons, List.dropWhile_cons]
      simp [h, h2]

lemma afterLastSlash_map (l : LC) :
    afterLastSlash (l.map pyLower) = (afterLastSlash l).map pyLower := by
  induction l with
  | nil => rfl
  | cons a l ih =>
    have hiff : (pyLower a = '/' ∨ (l.map pyLower).contains '/' = true)
        ↔ (a = '/' ∨ l.contains '/' = true) := by
      rw [pyLower_low a '/' (by decide), contains_slash_map]
    simp only [List.map_cons, afterLastSlash]
    by_cases h : a = '/' ∨ l.contains '/' = true
    · rw [if_pos (hiff.mpr h), if_pos h]
      exact ih
    · rw [if_neg (fun hx => h (hiff.mp hx)), if_neg h]
      rfl

lemma lastDotSuffix_map (l : LC) :
    lastDotSuffix (l.map pyLower) = (lastDotSuffix l).map (List.map pyLower) := by
  induction l with
  | nil => rfl
  | cons a l ih =>
    simp only [List.map_cons, lastDotSuffix, ih]
    cases h : lastDotSuffix l with
    | some s => simp
    | none =>
      by_cases hd : a = '.'
      · subst hd
        simp [show pyLower '.' = '.' from rfl]
      · have h2 : pyLower a ≠ '.' := fun hx => hd ((pyLower_low a '.' (by decide)).mp hx)
        simp [hd, h2]

lemma stripDot_map (l : LC) :
    pyStripChar '.' (l.map pyLower) = (pyStripChar '.' l).map pyLower := by
  unfold pyStripChar
  rw [dropDot_map, ← List.map_reverse, dropDot_map, ← List.map_reverse]

lemma splitextExt_map (p : LC) : splitextExt (p.map pyLower) = (splitextExt p).map pyLower := by
  unfold splitextExt
  rw [afterLastSlash_map, dropDot_map, lastDotSuffix_map]
  cases h : lastDotSuffix ((afterLastSlash p).dropWhile (fun a => a = '.')) with
  | some s => simp
  | none => simp

lemma strLower_idem (l : LC) : strLower (strLower l) = strLower l := by
  unfold strLower
  induction l with
  | nil => rfl
  | cons a l ih => simp only [List.map_cons, pyLower_idem, ih]

lemma extension_strLower (p : LC) : extension (strLower p) = extension p := by
  unfold extension strLower
  rw [splitextExt_map, stripDot_map]
  exact strLower_idem _

/-- C10: extension matching is case-insensitive and ignores the leading
dot — lowercasing a path never changes its computed extension nor its
compression decision, and a large artifact at `index.HTML` is treated as
compressible. -/
theorem extension_case_insensitive (p : LC) (d : List Nat) :
    extension (strLower p) = extension p
    ∧ shouldCompress ⟨strLower p, d⟩ = shouldCompress ⟨p, d⟩
    ∧ (COMPRESS_MIN_SIZE ≤ d.length → shouldCompress ⟨"index.HTML".data, d⟩ = true) := by
  refine ⟨extension_strLower p, ?_, ?_⟩
  · show (if !(COMPRESS_TYPES.contains (extension (strLower p))) then false
        else if d.length < COMPRESS_MIN_SIZE then false else true)
      = (if !(COMPRESS_TYPES.contains (extension p)) then false
        else if d.length < COMPRESS_MIN_SIZE then false else true)
    rw [extension_strLower p]
  · intro hd
    show (if !(COMPRESS_TYPES.contains (extension ("index.HTML".data))) then false
        else if d.length < COMPRESS_MIN_SIZE then false else true) = true
    rw [show (COMPRESS_TYPES.contains (extension ("index.HTML".data))) = true from by decide]
    rw [if_neg (by simp)]
    rw [if_neg (by omega)]

/-- C10 witness: `a/B.TXT` and its lowercasing agree, and a 1024-byte
`index.HTML` is compressed. -/
theorem extension_case_insensitive_witness :
    extension (strLower ("a/B.TXT".data)) = extension ("a/B.TXT".data)
    ∧ shouldCompress ⟨strLower ("a/B.TXT".data), List.replicate 1024 7⟩
        = shouldCompress ⟨"a/B.TXT".data, List.replicate 1024 7⟩
    ∧ shouldCompress ⟨"index.HTML".data, List.replicate 1024 7⟩ = true := by
  have h := extension_case_insensitive ("a/B.TXT".data) (List.replicate 1024 7)
  exact ⟨h.1, h.2.1, h.2.2 (by rw [List.length_replicate]; exact Nat.le.refl)⟩

/-- C4: under the `tries = 5, delay = 3, backoff = 2` retry policy, four
transient failures then a success give a successful sync with 5 upload
attempts and sleeps 3, 6, 12, 24; five transient failures exhaust the 5
attempts and propagate the socket error after the same sleeps; a
non-transient failure propagates at once, after exactly one attempt and
no sleep. -/
theorem retry_policy :
    ((upload E0 stFail4 f0).1 = Except.ok ⟨true, (payload E0 f0).length⟩
      ∧ (upload E0 stFail4 f0).2.1.uploadCalls = 5
      ∧ (upload E0 stFail4 f0).2.2 = [3, 6, 12, 24])
    ∧ ((upload E0 stFail5 f0).1 = Except.error Err.socketErr
      ∧ (upload E0 stFail5 f0).2.1.uploadCalls = 5
      ∧ (upload E0 stFail5 f0).2.2 = [3, 6, 12, 24])
    ∧ ((upload E0 stAuth f0).1 = Except.error Err.otherErr
      ∧ (upload E0 stAuth f0).2.1.uploadCalls = 1
      ∧ (upload E0 stAuth f0).2.2 = []) :=
  ⟨⟨rfl, rfl, rfl⟩, ⟨rfl, rfl, rfl⟩, ⟨rfl, rfl, rfl⟩⟩

/-- C5 counterexample: with a single transient failure of the store
upload on the first attempt, the pre-deploy hook and the remote metadata
fetch each run twice in one sync — not exactly once as claimed, because
the retry decorator wraps the whole `upload` method. -/
theorem hook_fetch_not_isolated :
    (upload E0 stFail1 f0).2.1.hookCalls = 2
    ∧ (upload E0 stFail1 f0).2.1.fetchCalls = 2
    ∧ ¬((upload E0 stFail1 f0).2.1.hookCalls = 1 ∧ (upload E0 stFail1 f0).2.1.fetchCalls = 1) :=
  ⟨rfl, rfl, by decide⟩

/-- C5 (amended): the retry envelope covers the entire upload method, so
the pre-deploy hook and the metadata fetch run exactly once per attempt —
they are re-executed on every retry; in the one-transient-failure scenario
each runs twice, once per attempt. -/
theorem hook_fetch_per_attempt (E : Externals) (st : Store) (f : File) (s : SyncState) :
    ((uploadBody E st f s).2.hookCalls = s.hookCalls + 1
      ∧ (uploadBody E st f s).2.fetchCalls = s.fetchCalls + 1)
    ∧ ((upload E0 stFail1 f0).2.1.hookCalls = 2
      ∧ (upload E0 stFail1 f0).2.1.fetchCalls = 2
      ∧ (upload E0 stFail1 f0).2.1.uploadCalls = 2) := by
  refine ⟨?_, rfl, rfl, rfl⟩
  cases hch : changed E st.remote (buildHeaders f) f
  · rw [uploadBody_unchanged E st f s hch]
    exact ⟨rfl, rfl⟩
  · rw [uploadBody_changed E st f s hch]
    exact ⟨rfl, rfl⟩

lemma progress_inv (reports : List Nat) (s : ProgressState)
    (h1 : s.log.Pairwise (· < ·)) (h2 : ∀ x ∈ s.log, x ≤ s.lastUpload) :
    (runProgress s reports).log.Pairwise (· < ·)
    ∧ ∀ x ∈ (runProgress s reports).log, x ≤ (runProgress s reports).lastUpload := by
  induction reports generalizing s with
  | nil => exact ⟨h1, h2⟩
  | cons c tl ih =>
    have hstep : runProgress s (c :: tl) = runProgress (progressCallback s c) tl := rfl
    rw [hstep]
    apply ih
    · unfold progressCallback
      split
      · rename_i hlt
        show (s.log ++ [c]).Pairwise (· < ·)
        refine List.pairwise_append.mpr ⟨h1, List.pairwise_singleton _ _, ?_⟩
        intro x hx y hy
        rw [List.mem_singleton] at hy
        subst hy
        exact lt_of_le_of_lt (h2 x hx) hlt
      · exact h1
    · unfold progressCallback
      split
      · rename_i hlt
        intro x hx
        rcases List.mem_append.mp hx with hx1 | hx2
        · exact le_of_lt (lt_of_le_of_lt (h2 x hx1) hlt)
        · rw [List.mem_singleton] at hx2
          subst hx2
          exact le_refl _
      · exact h2

/-- C8: when the artifact is changed, a progress observer is attached iff
the payload exceeds `PROGRESS_MIN_SIZE`; the observer logs only when the
reported cumulative bytes strictly exceed the high-water mark, updating
the mark, so the logged byte counts are strictly increasing (no value
logged twice, nothing logged after a decrease). -/
theorem progressObserver_spec (E : Externals) (st : Store) (f : File) (s : SyncState)
    (reports : List Nat) (ps : ProgressState)
    (h : changed E st.remote (buildHeaders f) f = true) :
    (uploadBody E st f s).2.progressAttached = decide (PROGRESS_MIN_SIZE < (payload E f).length)
    ∧ (runProgress ⟨0, []⟩ reports).log.Pairwise (· < ·)
    ∧ (∀ c, c ≤ ps.lastUpload → progressCallback ps c = ps)
    ∧ ∀ c, ps.lastUpload < c → progressCallback ps c = ⟨c, ps.log ++ [c]⟩ := by
  refine ⟨?_, ?_, ?_, ?_⟩
  · rw [uploadBody_changed E st f s h]
  · exact (progress_inv reports ⟨0, []⟩ (List.Pairwise.nil) (by intro x hx; cases hx)).1
  · intro c hc
    unfold progressCallback
    rw [if_neg (by omega)]
  · intro c hc
    unfold progressCallback
    rw [if_pos hc]

/-- C8 witness: concrete run of the observer and of the attachment
decision for `f0` against an absent remote object. -/
theorem progressObserver_spec_witness :
    (uploadBody E0 stOk f0 initState).2.progressAttached
        = decide (PROGRESS_MIN_SIZE < (payload E0 f0).length)
    ∧ (runProgress ⟨0, []⟩ [1, 3, 2, 3, 5]).log.Pairwise (· < ·)
    ∧ progressCallback ⟨3, [1, 3]⟩ 2 = ⟨3, [1, 3]⟩
    ∧ progressCallback ⟨3, [1, 3]⟩ 5 = ⟨5, [1, 3] ++ [5]⟩ := by
  have h := progressObserver_spec E0 stOk f0 initState [1, 3, 2, 3, 5] ⟨3, [1, 3]⟩ (by decide)
  exact ⟨h.1, h.2.1, h.2.2.1 2 (by decide), h.2.2.2 5 (by decide)⟩
